import Mathlib

/-!
Verification development for the OC_Atari repository fragment consisting of
`ocatari/ram/game_objects.py`, `ocatari/ram/riverraid.py` and
`scripts/metrics_utils.py`.

The Python source is shallowly embedded: entities become a Lean structure,
the in-place mutation of the decoders and of the matching engine becomes
explicit state passing, Python exceptions become `Except PyErr`, Python's
true division becomes division on `ℚ` (guarded by an explicit
`zeroDivisionError` where the source can raise), and a Python attribute that
a constructor may leave unset is wrapped in one more `Option` layer.
-/

namespace OCAtari

/-- The Python exceptions that the embedded code can raise. -/
inductive PyErr where
  | attributeError
  | zeroDivisionError
  | keyError
  | indexError
deriving DecidableEq, Repr

/-- Decidable equality of embedded Python results, so that concrete runs
can be checked by evaluation. -/
instance {ε α : Type} [DecidableEq ε] [DecidableEq α] :
    DecidableEq (Except ε α) := fun
  | .error a, .error b =>
      if h : a = b then .isTrue (by rw [h])
      else .isFalse (fun hc => h (Except.error.inj hc))
  | .error _, .ok _ => .isFalse (fun hc => Except.noConfusion hc)
  | .ok _, .error _ => .isFalse (fun hc => Except.noConfusion hc)
  | .ok a, .ok b =>
      if h : a = b then .isTrue (by rw [h])
      else .isFalse (fun hc => h (Except.ok.inj hc))

/-- Embedding of `game_objects.GameObject` instance state.

`cls` stands for `self.__class__.__name__` (= the `category` property).
`prevXy` embeds `self._prev_xy`: the outer `Option` is `none` when the
attribute was never assigned (a constructor that skips
`GameObject.__init__` leaves it unset, so reading raises `AttributeError`);
the inner `Option` is the Python value (`None` or a pair).
`orient` embeds `self._orientation` with the same outer-`Option` convention.
`isInRam` / `isInImage` embed the scratch attributes `_is_in_ram` /
`_is_in_image` that `difference_objects` writes; `none` means unset. -/
structure GameObj where
  cls : String
  rgb : ℤ × ℤ × ℤ
  xy : ℤ × ℤ
  wh : ℤ × ℤ
  prevXy : Option (Option (ℤ × ℤ))
  orient : Option ℤ
  hud : Bool
  isInRam : Option Bool
  isInImage : Option Bool
deriving DecidableEq, Repr

namespace GameObj

/-- `GameObject.prev_xy` property: `if self._prev_xy: return self._prev_xy
else: return self._xy` (a pair is always truthy, `None` is falsy); raises
`AttributeError` when `_prev_xy` was never assigned. -/
def prev_xy (o : GameObj) : Except PyErr (ℤ × ℤ) :=
  match o.prevXy with
  | none => .error .attributeError
  | some none => .ok o.xy
  | some (some p) => .ok p

/-- `GameObject.dx` property: `self._xy[0] - self.prev_xy[0]`. -/
def dx (o : GameObj) : Except PyErr ℤ := do
  let p ← o.prev_xy
  return o.xy.1 - p.1

/-- `GameObject.dy` property: `self._xy[1] - self.prev_xy[1]`. -/
def dy (o : GameObj) : Except PyErr ℤ := do
  let p ← o.prev_xy
  return o.xy.2 - p.2

/-- `GameObject.h_coords` property: `[self._xy, self.prev_xy]`. -/
def h_coords (o : GameObj) : Except PyErr (List (ℤ × ℤ)) := do
  let p ← o.prev_xy
  return [o.xy, p]

/-- `GameObject.xy` setter: `self._xy = xy` (it does not touch `_prev_xy`). -/
def setXy (o : GameObj) (p : ℤ × ℤ) : GameObj := { o with xy := p }

/-- `GameObject._save_prev`: `self._prev_xy = self._xy`. -/
def save_prev (o : GameObj) : GameObj := { o with prevXy := some (some o.xy) }

/-- `GameObject.center` property: `(x + w/2, y + h/2)` with Python true
division, so the result lives in `ℚ`. -/
def center (o : GameObj) : ℚ × ℚ :=
  ((o.xy.1 : ℚ) + (o.wh.1 : ℚ) / 2, (o.xy.2 : ℚ) + (o.wh.2 : ℚ) / 2)

end GameObj

/-- `GameObject.__init__`: sets `rgb`, `_xy`, `wh`, `_prev_xy = None`,
`_orientation = 0`, `hud = False`.  The class name is a parameter because
`category` is `self.__class__.__name__`. -/
def mkGameObject (cls : String) : GameObj :=
  { cls := cls, rgb := (0, 0, 0), xy := (0, 0), wh := (0, 0),
    prevXy := some none, orient := some 0, hud := false,
    isInRam := none, isInImage := none }

/-- `riverraid.Player.__init__`: sets only `_xy`, `wh`, `rgb`, `hud`; it does
not call `GameObject.__init__`, so `_prev_xy` and `_orientation` stay
unset. -/
def mkPlayer : GameObj :=
  { cls := "Player", rgb := (232, 232, 74), xy := (77, 145), wh := (7, 13),
    prevXy := none, orient := none, hud := false,
    isInRam := none, isInImage := none }

/-- `riverraid.PlayerMissile.__init__`: like `Player`, skips the base
initializer. -/
def mkPlayerMissile : GameObj :=
  { cls := "PlayerMissile", rgb := (232, 232, 74), xy := (0, 0), wh := (1, 8),
    prevXy := none, orient := none, hud := false,
    isInRam := none, isInImage := none }

/-- `riverraid.PlayerScore.__init__`: like `Player`, skips the base
initializer; `hud = True`. -/
def mkPlayerScore : GameObj :=
  { cls := "PlayerScore", rgb := (232, 232, 74), xy := (97, 165), wh := (6, 8),
    prevXy := none, orient := none, hud := true,
    isInRam := none, isInImage := none }

/-- `riverraid.Lives.__init__`: like `Player`, skips the base initializer;
`hud = True`. -/
def mkLives : GameObj :=
  { cls := "Lives", rgb := (232, 232, 74), xy := (57, 192), wh := (6, 8),
    prevXy := none, orient := none, hud := true,
    isInRam := none, isInImage := none }

/-- `riverraid._DescendingObject.__init__(xfr, x_off)`: calls the base
initializer, then `self._xy = (15*xfr - x_off, -5 - self.wh[1])`; at that
point `wh` is still `(0, 0)`, so the `y` component is `-5`. -/
def mkDescendingObject (cls : String) (xfr xoff : ℤ) : GameObj :=
  { mkGameObject cls with xy := (15 * xfr - xoff, -5 - 0) }

/-- `riverraid.Helicopter.__init__`: `_DescendingObject.__init__`, then
`wh = (8, 1)`, `rgb = (0, 64, 48)`, `hud = False`, then
`self.xy = (x, y - h)` through the plain `xy` setter. -/
def mkHelicopter (xfr xoff : ℤ) : GameObj :=
  let o := mkDescendingObject "Helicopter" xfr xoff
  let o := { o with wh := (8, 1), rgb := (0, 64, 48), hud := false }
  o.setXy (o.xy.1, o.xy.2 - o.wh.2)

/-- `riverraid.Tanker.__init__`. -/
def mkTanker (xfr xoff : ℤ) : GameObj :=
  let o := mkDescendingObject "Tanker" xfr xoff
  { o with wh := (16, 1), rgb := (84, 160, 197), hud := false }

/-- `riverraid.Jet.__init__`. -/
def mkJet (xfr xoff : ℤ) : GameObj :=
  let o := mkDescendingObject "Jet" xfr xoff
  { o with wh := (10, 1), rgb := (117, 181, 239), hud := false }

/-- `riverraid.Bridge.__init__`. -/
def mkBridge (xfr xoff : ℤ) : GameObj :=
  let o := mkDescendingObject "Bridge" xfr xoff
  { o with wh := (32, 18), rgb := (134, 134, 29), hud := false }

/-- `riverraid.FuelDepot.__init__`: like `Helicopter`, with a final
`self.xy = (x, y - h)` adjustment. -/
def mkFuelDepot (xfr xoff : ℤ) : GameObj :=
  let o := mkDescendingObject "FuelDepot" xfr xoff
  let o := { o with wh := (7, 1), rgb := (210, 91, 94), hud := false }
  o.setXy (o.xy.1, o.xy.2 - o.wh.2)

/-! ## The river raid decoder (`ocatari/ram/riverraid.py`)

The RAM snapshot is embedded as a function `ℕ → ℕ` (the source only reads
fixed offsets below 128 of a 128-byte array). -/

/-- `riverraid.twos_comp`: two's complement of a 4-bit value. -/
def twos_comp (val : ℕ) : ℤ :=
  if val &&& (1 <<< 3) ≠ 0 then (val : ℤ) - (1 <<< 4) else (val : ℤ)

/-- `riverraid._ram_to_class`: type-code table; entry `i` is the class that
type code `i` constructs (`none` for Python `None`).  The class is kept as
its name, matching `GameObj.cls`. -/
def ram_to_class : List (Option String) :=
  [none, none, none, none, some "Jet", some "Helicopter", some "Helicopter",
   some "Tanker", some "Bridge", none, some "FuelDepot"]

/-- `_ram_to_class[t]`: Python list indexing raises `IndexError` when the
type code is out of range. -/
def ramToClass (t : ℕ) : Except PyErr (Option String) :=
  match ram_to_class.get? t with
  | some c => .ok c
  | none => .error .indexError

/-- The decoder's mutable state: the module globals `cntr`, `prev70` and
`enemies` together with the registry list `objects` that
`_detect_objects_riverraid_revised` mutates in place. -/
structure RRState where
  cntr : ℕ
  prev70 : Option ℕ
  enemies : List (Option GameObj)
  objects : List (Option GameObj)
deriving DecidableEq, Repr

/-- `riverraid._init_objects_riverraid_ram(hud)`: `enemies = [None]*6`,
`objects = [None]*2 + enemies`, `cntr, prev70 = 0, None`, and with `hud`
a `PlayerScore` and a `Lives` are appended. -/
def init_objects_riverraid_ram (hud : Bool) : RRState :=
  let enemies : List (Option GameObj) := List.replicate 6 none
  let objects := [none, none] ++ enemies ++
    (if hud then [some mkPlayerScore, some mkLives] else [])
  { cntr := 0, prev70 := none, enemies := enemies, objects := objects }

/-- The second loop of `_detect_objects_riverraid_revised`:
`for i, en in enumerate(enemies): if en is not None: if 0 <= en.y < 161:
objects[2+i] = en`.  The index counter `i` threads through the recursion. -/
def projectEnemies : List (Option GameObj) → ℕ → List (Option GameObj) →
    List (Option GameObj)
  | objs, _, [] => objs
  | objs, i, en :: rest =>
      let objs' := match en with
        | some e => if 0 ≤ e.xy.2 ∧ e.xy.2 < 161 then objs.set (2 + i) (some e)
                    else objs
        | none => objs
      projectEnemies objs' (i + 1) rest

/-- `riverraid._detect_objects_riverraid_revised(objects, ram_state, hud)`.

The first `for i in range(6)` loop of the source only reads the RAM and
indexes `_ram_to_class[ram_state[32+i]]` — every statement that would update
an enemy slot is commented out in the source — so its sole observable effect
is an `IndexError` when some type code exceeds the table length.  After the
loops the globals are updated: `cntr = ram_state[2]`, `prev70 =
ram_state[70]`.  (`framskips` and `speed` are computed but never used;
`print` calls are I/O only.) -/
def detect_objects_riverraid_revised (s : RRState) (ram : ℕ → ℕ)
    (hud : Bool) : Except PyErr RRState :=
  if (List.range 6).all (fun i => ram (32 + i) < ram_to_class.length) then
    .ok { cntr := ram 2, prev70 := some (ram 70),
          enemies := s.enemies,
          objects := projectEnemies s.objects 0 s.enemies }
  else .error .indexError

/-- One guarded accumulation statement of `riverraid_score`:
`if ram_state[off] != 88: score = score + weight * ram_state[off] / 8`. -/
def scoreStep (score : ℚ) (byte : ℕ) (weight : ℚ) : ℚ :=
  if byte ≠ 88 then score + weight * (byte : ℚ) / 8 else score

/-- `riverraid.riverraid_score(ram_state)`: one byte per decimal place at
offsets 77/79/81/83/85/87, each equal to `digit * 8`; byte 88 marks a
blanked digit and is skipped; Python `/` is true division, hence `ℚ`. -/
def riverraid_score (ram : ℕ → ℕ) : ℚ :=
  let score : ℚ := 0
  let score := scoreStep score (ram 77) 100000
  let score := scoreStep score (ram 79) 10000
  let score := scoreStep score (ram 81) 1000
  let score := scoreStep score (ram 83) 100
  let score := scoreStep score (ram 85) 10
  let score := scoreStep score (ram 87) 1
  score

/-! ## The matching engine (`scripts/metrics_utils.py`) -/

/-- `metrics_utils.MIN_DIST_DETECTION`. -/
def MIN_DIST_DETECTION : ℚ := 5

/-- Squared Euclidean distance between two centers. -/
def distSq (p q : ℚ × ℚ) : ℚ := (p.1 - q.1) ^ 2 + (p.2 - q.2) ^ 2

/-- Embedding of `euclidean(ro, vo) < MIN_DIST_DETECTION`: both sides are
nonnegative, so the strict comparison is squared to stay in `ℚ`. -/
def closeEnough (p q : ℚ × ℚ) : Bool :=
  distSq p q < MIN_DIST_DETECTION ^ 2

/-- Python's builtin `max` on two integers. -/
def imax (a b : ℤ) : ℤ := if a ≤ b then b else a

/-- Python's builtin `min` on two integers. -/
def imin (a b : ℤ) : ℤ := if a ≤ b then a else b

/-- `metrics_utils.get_iou(obj1, obj2)`: intersection rectangle, then
`interArea / float(boxAArea + boxBArea - interArea)`; Python raises
`ZeroDivisionError` when the denominator is zero. -/
def get_iou (o1 o2 : GameObj) : Except PyErr ℚ :=
  let xA := imax o1.xy.1 o2.xy.1
  let yA := imax o1.xy.2 o2.xy.2
  let xB := imin (o1.xy.1 + o1.wh.1) (o2.xy.1 + o2.wh.1)
  let yB := imin (o1.xy.2 + o1.wh.2) (o2.xy.2 + o2.wh.2)
  let interArea := imax 0 (xB - xA) * imax 0 (yB - yA)
  let boxAArea := o1.wh.1 * o1.wh.2
  let boxBArea := o2.wh.1 * o2.wh.2
  if boxAArea + boxBArea - interArea = 0 then .error .zeroDivisionError
  else .ok ((interArea : ℚ) / ((boxAArea + boxBArea - interArea : ℤ) : ℚ))

/-- Insertion of a category name into the running category list, keeping the
first occurrence (the source uses a Python `set`, whose iteration order is
unspecified; the embedding fixes first-occurrence order, which no theorem
below depends on beyond per-category values). -/
def insertCat (l : List String) (c : String) : List String :=
  if c ∈ l then l else l ++ [c]

/-- The category set of `metrics_utils.make_class_lists`. -/
def categoriesOf (objs : List GameObj) : List String :=
  (objs.map (fun o => o.cls)).foldl insertCat []

/-- `metrics_utils.make_class_lists(ram_list, vision_list)`: for each
category, the centers of the ram objects and of the vision objects of that
category. -/
def make_class_lists (ram vision : List GameObj) :
    List (String × List (ℚ × ℚ) × List (ℚ × ℚ)) :=
  (categoriesOf (ram ++ vision)).map (fun cat =>
    (cat, (ram.filter (fun o => o.cls = cat)).map GameObj.center,
          (vision.filter (fun o => o.cls = cat)).map GameObj.center))

/-- The classification loop of `detection_stats`:
`for ro, vo in zip(rlist, vlist): if euclidean(ro, vo) < 5: TrueP += 1
else: FalseN += 1; FalseP += 1`.  Returns the increments
`(TrueP, FalseP, FalseN)` contributed by the pairs. -/
def classifyPairs : List ((ℚ × ℚ) × (ℚ × ℚ)) → ℕ × ℕ × ℕ
  | [] => (0, 0, 0)
  | (r, v) :: rest =>
      let (tp, fp, fn) := classifyPairs rest
      if closeEnough r v then (tp + 1, fp, fn) else (tp, fp + 1, fn + 1)

/-- The per-category body of `metrics_utils.detection_stats`.  `solver`
stands for the external `scipy.optimize.linear_sum_assignment` call together
with the two reassignment comprehensions: it is only invoked when both lists
have more than one element, and every theorem below holds for every solver.
`FalseP = max(0, len(rlist) - len(vlist))` and
`FalseN = max(0, len(vlist) - len(rlist))` are the truncated subtractions on
`ℕ`. -/
def detectionStatsCat
    (solver : List (ℚ × ℚ) → List (ℚ × ℚ) → List (ℚ × ℚ) × List (ℚ × ℚ))
    (rlist vlist : List (ℚ × ℚ)) : ℕ × ℕ × ℕ :=
  let falseP := rlist.length - vlist.length
  let falseN := vlist.length - rlist.length
  let (rlist', vlist') :=
    if 1 < rlist.length ∧ 1 < vlist.length then solver rlist vlist
    else (rlist, vlist)
  let (tp, fpx, fnx) := classifyPairs (rlist'.zip vlist')
  (tp, falseP + fpx, falseN + fnx)

/-- `metrics_utils.detection_stats(ram_list, vision_list)`: the category
map `dets` with one `(TrueP, FalseP, FalseN)` triple per category. -/
def detection_stats
    (solver : List (ℚ × ℚ) → List (ℚ × ℚ) → List (ℚ × ℚ) × List (ℚ × ℚ))
    (ram vision : List GameObj) : List (String × ℕ × ℕ × ℕ) :=
  (make_class_lists ram vision).map (fun e =>
    (e.1, detectionStatsCat solver e.2.1 e.2.2))

/-! ### `DetectionScores` aggregate statistics -/

/-- The accumulated `DetectionScores` state: the three dictionaries
`true_pos`, `false_pos`, `false_neg` share their key set (maintained by
`update`), so they are embedded as one association list
`cat ↦ (TP, FP, FN)`. -/
structure DetScores where
  entries : List (String × ℕ × ℕ × ℕ)
deriving DecidableEq, Repr

/-- `DetectionScores.cat_precisions`:
`{cat: TP/(TP+FP) for cat in true_pos if TP+FP}` — the truthiness filter
keeps exactly the categories with a nonzero denominator. -/
def catPrecisions (s : DetScores) : List (String × ℚ) :=
  s.entries.filterMap (fun e =>
    if e.2.1 + e.2.2.1 ≠ 0
    then some (e.1, (e.2.1 : ℚ) / ((e.2.1 : ℚ) + (e.2.2.1 : ℚ)))
    else none)

/-- `DetectionScores.cat_recalls`: same with `false_neg`. -/
def catRecalls (s : DetScores) : List (String × ℚ) :=
  s.entries.filterMap (fun e =>
    if e.2.1 + e.2.2.2 ≠ 0
    then some (e.1, (e.2.1 : ℚ) / ((e.2.1 : ℚ) + (e.2.2.2 : ℚ)))
    else none)

/-- Python division with the `ZeroDivisionError` it can raise. -/
def divE (a b : ℚ) : Except PyErr ℚ :=
  if b = 0 then .error .zeroDivisionError else .ok (a / b)

/-- `cat_precisions` with each division embedded through `divE`, to show
where a `ZeroDivisionError` could arise. -/
def catPrecisionsE (s : DetScores) : Except PyErr (List (String × ℚ)) :=
  s.entries.foldr (fun e acc => do
    let l ← acc
    if e.2.1 + e.2.2.1 ≠ 0 then
      let v ← divE (e.2.1 : ℚ) ((e.2.1 : ℚ) + (e.2.2.1 : ℚ))
      return (e.1, v) :: l
    else return l) (.ok [])

/-- `cat_recalls` with explicit division errors. -/
def catRecallsE (s : DetScores) : Except PyErr (List (String × ℚ)) :=
  s.entries.foldr (fun e acc => do
    let l ← acc
    if e.2.1 + e.2.2.2 ≠ 0 then
      let v ← divE (e.2.1 : ℚ) ((e.2.1 : ℚ) + (e.2.2.2 : ℚ))
      return (e.1, v) :: l
    else return l) (.ok [])

/-- Python dictionary access on an association list (first key match). -/
def lookupD {α : Type} : List (String × α) → String → Option α
  | [], _ => none
  | (k, v) :: rest, c => if k = c then some v else lookupD rest c

/-- One step of the `cat_f_scores` loop: read `rec[cat]` (raising
`KeyError` when the category was omitted from the recall map — Python
evaluates it both in the `prec[cat] == 0 and rec[cat] == 0` test when the
left conjunct holds and in the `else` branch); the F-score is `0` when
precision and recall are both `0`, else `2*P*R/(P+R)` with an explicit
division. -/
def fScoreStep (recalls : List (String × ℚ)) (e : String × ℚ)
    (acc : Except PyErr (List (String × ℚ))) :
    Except PyErr (List (String × ℚ)) := do
  let l ← acc
  match lookupD recalls e.1 with
  | none => .error .keyError
  | some r =>
      if e.2 = (0 : ℚ) ∧ r = 0 then return (e.1, (0 : ℚ)) :: l
      else do
        let v ← divE (2 * e.2 * r) (e.2 + r)
        return (e.1, v) :: l

/-- `DetectionScores.cat_f_scores`: iterates over the precision keys,
applying `fScoreStep` with the recall map. -/
def catFScoresE (s : DetScores) : Except PyErr (List (String × ℚ)) :=
  (catPrecisions s).foldr (fScoreStep (catRecalls s)) (.ok [])

/-! ### `difference_objects` -/

/-- `per_class_ious` dictionary update: append `iou` to the entry of `name`,
creating the entry when absent (insertion order as in a Python dict). -/
def addPerClass : List (String × List ℚ) → String → ℚ → List (String × List ℚ)
  | [], n, v => [(n, [v])]
  | (m, l) :: rest, n, v =>
      if m = n then (m, l ++ [v]) :: rest else (m, l) :: addPerClass rest n v

/-- The pre-pass `for vobj in vision_list: vobj._is_in_ram = False`. -/
def resetVision (v : List GameObj) : List GameObj :=
  v.map (fun o => { o with isInRam := some false })

/-- The inner loop of `difference_objects` for one ram object: scan the
vision list in order; on a vision object of the same class compute
`get_iou` (which may raise); when the IOU is strictly positive, append it,
mark `vobj._is_in_ram = True` and `break`.  Returns the updated vision list
and the IOU found, if any. -/
def scanVision (robj : GameObj) :
    List GameObj → Except PyErr (List GameObj × Option ℚ)
  | [] => .ok ([], none)
  | vobj :: rest =>
      if robj.cls = vobj.cls then do
        let iou ← get_iou robj vobj
        if 0 < iou then
          .ok ({ vobj with isInRam := some true } :: rest, some iou)
        else do
          let (rest', res) ← scanVision robj rest
          .ok (vobj :: rest', res)
      else do
        let (rest', res) ← scanVision robj rest
        .ok (vobj :: rest', res)

/-- The outer loop of `difference_objects`: each ram object gets
`_is_in_image = False`, is scanned against the (shared, updating) vision
list, and on a hit the IOU is appended to `ious` and to the per-class
dictionary and `_is_in_image` becomes `True`.  Returns the updated ram
list, the updated vision list, `ious` and `per_class_ious`. -/
def scanRam : List GameObj → List GameObj → List ℚ →
    List (String × List ℚ) →
    Except PyErr (List GameObj × List GameObj × List ℚ × List (String × List ℚ))
  | [], vlist, ious, pc => .ok ([], vlist, ious, pc)
  | robj :: rrest, vlist, ious, pc => do
      let (vlist', found) ← scanVision robj vlist
      match found with
      | some iou => do
          let (rrest', v2, ious', pc') ←
            scanRam rrest vlist' (ious ++ [iou]) (addPerClass pc robj.cls iou)
          .ok ({ robj with isInImage := some true } :: rrest', v2, ious', pc')
      | none => do
          let (rrest', v2, ious', pc') ← scanRam rrest vlist' ious pc
          .ok ({ robj with isInImage := some false } :: rrest', v2, ious', pc')

/-- `np.mean` of a list of IOU values; `none` embeds the NaN produced on an
empty list. -/
def pyMean (l : List ℚ) : Option ℚ :=
  if l = [] then none else some (l.sum / (l.length : ℚ))

/-- `np.mean` on a per-class list, which is nonempty by construction. -/
def listMean (l : List ℚ) : ℚ := l.sum / (l.length : ℚ)

/-- The report dictionary returned by `difference_objects`.  The source
stores `str(obj)` in the object listings; the embedding keeps the objects
themselves (the `repr` is a pure function of the object). -/
structure DiffReport where
  meanIou : Option ℚ
  perClassIous : List (String × ℚ)
  onlyInRam : List GameObj
  onlyInVision : List GameObj
  objsInRam : List GameObj
  objsInVision : List GameObj
  dets : List (String × ℕ × ℕ × ℕ)
deriving DecidableEq, Repr

/-- `metrics_utils.difference_objects(ram_list, vision_list)`.  The source
mutates the entities of both input lists in place (their `_is_in_ram` /
`_is_in_image` scratch attributes); the embedding returns the updated lists
next to the report. -/
def difference_objects
    (solver : List (ℚ × ℚ) → List (ℚ × ℚ) → List (ℚ × ℚ) × List (ℚ × ℚ))
    (ram vision : List GameObj) :
    Except PyErr (DiffReport × List GameObj × List GameObj) := do
  let dets := detection_stats solver ram vision
  let v0 := resetVision vision
  let (ram', v', ious, pc) ← scanRam ram v0 [] []
  let pci := pc.map (fun e => (e.1, listMean e.2))
  let onlyRam := ram'.filter (fun o => o.isInImage ≠ some true)
  let onlyVision := v'.filter (fun o => o.isInRam ≠ some true)
  return ({ meanIou := pyMean ious, perClassIous := pci,
            onlyInRam := onlyRam, onlyInVision := onlyVision,
            objsInRam := ram', objsInVision := v', dets := dets },
          ram', v')

/-- Scratch-flag erasure: two objects equal after `stripFlags` agree on
every field the engine's geometry and category logic reads. -/
def stripFlags (o : GameObj) : GameObj :=
  { o with isInRam := none, isInImage := none }

/-- Declarative description of the IOU-collection policy actually
implemented by `scanVision` (first strictly positive IOU against a
same-class vision object, in list order; the correction of claim C4 follows
these words): used to prove that the imperative scan refines it. -/
def firstPositiveIou (robj : GameObj) :
    List GameObj → Except PyErr (Option ℚ)
  | [] => .ok none
  | vobj :: rest =>
      if robj.cls = vobj.cls then do
        let iou ← get_iou robj vobj
        if 0 < iou then .ok (some iou) else firstPositiveIou robj rest
      else firstPositiveIou robj rest

/-- Declarative list of collected IOUs: one entry per ram object that finds
a first positive same-class IOU in the vision list. -/
def iousSpec : List GameObj → List GameObj → Except PyErr (List ℚ)
  | [], _ => .ok []
  | robj :: rest, vlist => do
      let f ← firstPositiveIou robj vlist
      let tail ← iousSpec rest vlist
      match f with
      | some i => .ok (i :: tail)
      | none => .ok tail

/-! ## Theorems for the claims -/

/-- C3, counterexample: the claim states that for every value of the hud
flag the player and missile singleton slots of the freshly initialized
registry hold present, default-positioned `Player` / `PlayerMissile`
entities.  In the code both slots are `None`: slot 0 is `some none`
(an empty slot), not a present default `Player`, and slot 1 likewise. -/
theorem claim3_counterexample :
    (init_objects_riverraid_ram false).objects.get? 0 = some none ∧
    (init_objects_riverraid_ram false).objects.get? 1 = some none ∧
    (some none : Option (Option GameObj)) ≠ some (some mkPlayer) ∧
    (some none : Option (Option GameObj)) ≠ some (some mkPlayerMissile) := by
  refine ⟨rfl, rfl, by decide, by decide⟩

/-- C3 (amended): for every value of the hud flag, `initialize` returns a
registry in which the player slot, the missile slot and all six enemy
slots are empty (`None`); when the hud flag is set, `PlayerScore` and
`Lives` entities are appended, present at their default positions.  The
module globals are reset to `cntr = 0`, `prev70 = None`, `enemies`
all-absent. -/
theorem claim3_init_registry_amended (hud : Bool) :
    (init_objects_riverraid_ram hud).objects =
      List.replicate 8 none ++
        (if hud then [some mkPlayerScore, some mkLives] else []) ∧
    (init_objects_riverraid_ram hud).enemies = List.replicate 6 none ∧
    (init_objects_riverraid_ram hud).cntr = 0 ∧
    (init_objects_riverraid_ram hud).prev70 = none := by
  cases hud <;> exact ⟨rfl, rfl, rfl, rfl⟩

/-- C5, counterexample: the claim states that the set-position operation
pushes the old position into the history before overwriting, so that a
fresh base object moved from `(0, 0)` to `(5, 5)` would read history
`((5, 5), (0, 0))`.  The `xy` setter of the code does not touch
`_prev_xy`, so the history reads `((5, 5), (5, 5))` instead. -/
theorem claim5_counterexample :
    ((mkGameObject "GameObject").setXy (5, 5)).h_coords =
      .ok [(5, 5), (5, 5)] ∧
    ((mkGameObject "GameObject").setXy (5, 5)).h_coords ≠
      .ok [(5, 5), (0, 0)] := by
  refine ⟨rfl, fun h => absurd (Except.ok.inj h) (by decide)⟩

/-- C5 (amended): the `xy` setter overwrites the position without pushing
the old one into the history (`_prev_xy` is untouched); the push is the
separate `_save_prev` operation, so `_save_prev` followed by set-position
makes the history read `(new_position, old_position)` as first/second
elements.  Reading the history again without a further mutation yields the
same pair, as `h_coords` is a pure accessor of the object state. -/
theorem claim5_set_position_amended (o : GameObj) (p : ℤ × ℤ) :
    (o.setXy p).prevXy = o.prevXy ∧
    ((o.save_prev).setXy p).h_coords = .ok [p, o.xy] ∧
    ((o.save_prev).setXy p).h_coords = ((o.save_prev).setXy p).h_coords :=
  ⟨rfl, rfl, rfl⟩

/-- C6: the claim states every freshly constructed entity — explicitly
including `Player`, `PlayerMissile`, `PlayerScore` and `Lives` — has
velocity `(0, 0)`, a two-entry history equal to the current position, and
no partially-initialized state observable through any accessor.  Those four
constructors skip `GameObject.__init__`, leaving `_prev_xy` unset, so
reading `dx`, `dy` or `h_coords` on a fresh instance raises
`AttributeError` (the base-class docstring documents these as instance
variables of every game object, so this is a defect of the constructors);
a fresh base `GameObject` does satisfy the claimed invariants. -/
theorem claim6_fresh_entity_accessors :
    mkPlayer.dx = .error .attributeError ∧
    mkPlayer.dy = .error .attributeError ∧
    mkPlayer.h_coords = .error .attributeError ∧
    mkPlayerMissile.dx = .error .attributeError ∧
    mkPlayerScore.dx = .error .attributeError ∧
    mkLives.dx = .error .attributeError ∧
    (mkGameObject "GameObject").dx = .ok 0 ∧
    (mkGameObject "GameObject").dy = .ok 0 ∧
    (mkGameObject "GameObject").h_coords = .ok [(0, 0), (0, 0)] := by
  exact ⟨rfl, rfl, rfl, rfl, rfl, rfl, rfl, rfl, rfl⟩

/-- C7: `riverraid_score` is the weighted sum over the six digit positions
(offsets 77, 79, 81, 83, 85, 87) of `(byte / 8)` times the decimal place
weight, skipping any position whose byte equals the sentinel 88; digit
bytes `88, 88, 88, 24, 16, 8` at those positions decode to exactly 321. -/
theorem claim7_riverraid_score :
    (∀ ram : ℕ → ℕ, riverraid_score ram =
      (if ram 77 = 88 then 0 else (ram 77 : ℚ) / 8 * 100000) +
      (if ram 79 = 88 then 0 else (ram 79 : ℚ) / 8 * 10000) +
      (if ram 81 = 88 then 0 else (ram 81 : ℚ) / 8 * 1000) +
      (if ram 83 = 88 then 0 else (ram 83 : ℚ) / 8 * 100) +
      (if ram 85 = 88 then 0 else (ram 85 : ℚ) / 8 * 10) +
      (if ram 87 = 88 then 0 else (ram 87 : ℚ) / 8 * 1)) ∧
    riverraid_score (fun n =>
      if n = 83 then 24 else if n = 85 then 16 else if n = 87 then 8
      else 88) = 321 := by
  have hstep : ∀ (s : ℚ) (b : ℕ) (w : ℚ),
      scoreStep s b w = s + (if b = 88 then 0 else (b : ℚ) / 8 * w) := by
    intro s b w
    unfold scoreStep
    by_cases h : b = 88
    · simp [h]
    · rw [if_pos h, if_neg h]
      ring
  constructor
  · intro ram
    simp only [riverraid_score, hstep]
    ring
  · simp only [riverraid_score, hstep]
    norm_num

/-- C10: `get_iou` is not total: whenever both bounding-box areas are zero
— as for two default-constructed base `GameObject`s, whose size defaults
to `(0, 0)` — the intersection area is forced to zero as well, the IOU
denominator vanishes, and the code raises `ZeroDivisionError`. -/
theorem claim10_get_iou_zero_area (o1 o2 : GameObj)
    (h1 : o1.wh.1 * o1.wh.2 = 0) (h2 : o2.wh.1 * o2.wh.2 = 0) :
    get_iou o1 o2 = .error .zeroDivisionError := by
  have hx : o1.wh.1 = 0 ∨ o1.wh.2 = 0 := mul_eq_zero.mp h1
  have himax_np : ∀ t : ℤ, t ≤ 0 → imax 0 t = 0 := by
    intro t ht
    unfold imax
    split_ifs with hcond <;> omega
  have himin_left : ∀ a b : ℤ, imin a b ≤ a := by
    intro a b
    unfold imin
    split_ifs with hcond <;> omega
  have hile : ∀ a b : ℤ, a ≤ imax a b := by
    intro a b
    unfold imax
    split_ifs with hcond <;> omega
  have hinter :
      imax 0 (imin (o1.xy.1 + o1.wh.1) (o2.xy.1 + o2.wh.1) -
          imax o1.xy.1 o2.xy.1) *
        imax 0 (imin (o1.xy.2 + o1.wh.2) (o2.xy.2 + o2.wh.2) -
          imax o1.xy.2 o2.xy.2) = 0 := by
    rcases hx with hw | hh
    · have ha := himin_left (o1.xy.1 + o1.wh.1) (o2.xy.1 + o2.wh.1)
      have hb := hile o1.xy.1 o2.xy.1
      rw [himax_np (imin (o1.xy.1 + o1.wh.1) (o2.xy.1 + o2.wh.1) -
        imax o1.xy.1 o2.xy.1) (by omega), zero_mul]
    · have ha := himin_left (o1.xy.2 + o1.wh.2) (o2.xy.2 + o2.wh.2)
      have hb := hile o1.xy.2 o2.xy.2
      rw [himax_np (imin (o1.xy.2 + o1.wh.2) (o2.xy.2 + o2.wh.2) -
        imax o1.xy.2 o2.xy.2) (by omega), mul_zero]
  simp only [get_iou]
  rw [hinter, h1, h2]
  norm_num

/-- C10, witness: two fresh base `GameObject`s have zero-area boxes and
`get_iou` raises on them. -/
theorem claim10_get_iou_zero_area_witness :
    get_iou (mkGameObject "GameObject") (mkGameObject "GameObject") =
      .error .zeroDivisionError :=
  claim10_get_iou_zero_area (mkGameObject "GameObject")
    (mkGameObject "GameObject") (by decide) (by decide)

/-- The classification loop counts: one true positive per aligned pair with
center distance strictly below the threshold, and one false positive plus
one false negative per aligned pair at or above it. -/
lemma classifyPairs_eq (l : List ((ℚ × ℚ) × (ℚ × ℚ))) :
    classifyPairs l =
      ((l.filter (fun p => closeEnough p.1 p.2)).length,
       (l.filter (fun p => !(closeEnough p.1 p.2))).length,
       (l.filter (fun p => !(closeEnough p.1 p.2))).length) := by
  induction l with
  | nil => rfl
  | cons h t ih =>
      obtain ⟨r, v⟩ := h
      simp only [classifyPairs, ih, List.filter_cons]
      cases hc : closeEnough r v <;> simp [hc]

/-- Concrete entities for the second part of claim C2: two candidates of
one category with no reference object. -/
def c2VisA : GameObj := { mkGameObject "Enemy" with xy := (10, 10) }

/-- Second concrete candidate entity for claim C2. -/
def c2VisB : GameObj := { mkGameObject "Enemy" with xy := (50, 50) }

/-- C2: per-category classification of `detection_stats`.  In the source,
`detection_stats(ram_list, vision_list)` counts surplus ram objects as
false positives and surplus vision objects as false negatives, so the
claim's "reference" list is the vision list and its "candidate" list is
the ram list (this is also forced by the claim's own concrete example).
For every assignment solver, every category's triple is:
`TP` = number of aligned pairs at center distance strictly below 5
(`closeEnough` squares the strict Euclidean comparison), `FP` =
`max(0, len(ram) - len(vision))` plus the pairs at distance ≥ 5, `FN` =
`max(0, len(vision) - len(ram))` plus the pairs at distance ≥ 5, where the
aligned pairs are the zip of the solver's reordering when both lists have
more than one element and of the original lists otherwise.  In particular
a vision (reference) list with two objects of one category and no ram
(candidate) object yields the triple `(TP, FP, FN) = (0, 0, 2)`. -/
theorem claim2_detection_stats_per_category
    (solver : List (ℚ × ℚ) → List (ℚ × ℚ) → List (ℚ × ℚ) × List (ℚ × ℚ))
    (rlist vlist : List (ℚ × ℚ)) :
    (detectionStatsCat solver rlist vlist =
      (let aligned := if 1 < rlist.length ∧ 1 < vlist.length
                      then solver rlist vlist else (rlist, vlist)
       let pairs := aligned.1.zip aligned.2
       ((pairs.filter (fun p => closeEnough p.1 p.2)).length,
        (rlist.length - vlist.length) +
          (pairs.filter (fun p => !(closeEnough p.1 p.2))).length,
        (vlist.length - rlist.length) +
          (pairs.filter (fun p => !(closeEnough p.1 p.2))).length))) ∧
    detection_stats solver [] [c2VisA, c2VisB] = [("Enemy", 0, 0, 2)] := by
  constructor
  · simp only [detectionStatsCat, classifyPairs_eq]
  · rfl

/-- A key absent from the accumulated state is absent from the precision
map. -/
lemma catPrecisions_lookupD_none (l : List (String × ℕ × ℕ × ℕ)) (c : String)
    (hc : c ∉ l.map Prod.fst) :
    lookupD (catPrecisions ⟨l⟩) c = none := by
  induction l with
  | nil => rfl
  | cons a t ih =>
      simp only [List.map_cons, List.mem_cons, not_or] at hc
      obtain ⟨hca, hct⟩ := hc
      simp only [catPrecisions, List.filterMap_cons]
      by_cases h : a.2.1 + a.2.2.1 ≠ 0
      · rw [if_pos h]
        simp only [lookupD, if_neg (Ne.symm hca)]
        exact ih hct
      · rw [if_neg h]
        exact ih hct

/-- A key absent from the accumulated state is absent from the recall
map. -/
lemma catRecalls_lookupD_none (l : List (String × ℕ × ℕ × ℕ)) (c : String)
    (hc : c ∉ l.map Prod.fst) :
    lookupD (catRecalls ⟨l⟩) c = none := by
  induction l with
  | nil => rfl
  | cons a t ih =>
      simp only [List.map_cons, List.mem_cons, not_or] at hc
      obtain ⟨hca, hct⟩ := hc
      simp only [catRecalls, List.filterMap_cons]
      by_cases h : a.2.1 + a.2.2.2 ≠ 0
      · rw [if_pos h]
        simp only [lookupD, if_neg (Ne.symm hca)]
        exact ih hct
      · rw [if_neg h]
        exact ih hct

/-- A successful `lookupD` result is a member of the association list. -/
lemma lookupD_mem {α : Type} (l : List (String × α)) (c : String) (v : α)
    (h : lookupD l c = some v) : (c, v) ∈ l := by
  induction l with
  | nil => cases h
  | cons a t ih =>
      obtain ⟨k, w⟩ := a
      simp only [lookupD] at h
      by_cases hk : k = c
      · rw [if_pos hk] at h
        cases h
        subst hk
        exact List.mem_cons_self _ _
      · rw [if_neg hk] at h
        exact List.mem_cons_of_mem _ (ih h)

/-- Every value in the precision map is nonnegative (a quotient of natural
counts). -/
lemma catPrecisions_nonneg (s : DetScores) (e : String × ℚ)
    (he : e ∈ catPrecisions s) : 0 ≤ e.2 := by
  simp only [catPrecisions, List.mem_filterMap] at he
  obtain ⟨a, _, ha⟩ := he
  by_cases h : a.2.1 + a.2.2.1 ≠ 0
  · rw [if_pos h] at ha
    cases ha
    exact div_nonneg (Nat.cast_nonneg _)
      (add_nonneg (Nat.cast_nonneg _) (Nat.cast_nonneg _))
  · rw [if_neg h] at ha
    cases ha

/-- Every value in the recall map is nonnegative. -/
lemma catRecalls_nonneg (s : DetScores) (e : String × ℚ)
    (he : e ∈ catRecalls s) : 0 ≤ e.2 := by
  simp only [catRecalls, List.mem_filterMap] at he
  obtain ⟨a, _, ha⟩ := he
  by_cases h : a.2.1 + a.2.2.2 ≠ 0
  · rw [if_pos h] at ha
    cases ha
    exact div_nonneg (Nat.cast_nonneg _)
      (add_nonneg (Nat.cast_nonneg _) (Nat.cast_nonneg _))
  · rw [if_neg h] at ha
    cases ha

/-- An entry with zero precision denominator is dropped from the precision
map (its key is looked up in vain), given distinct keys. -/
lemma catPrecisions_dropped (l : List (String × ℕ × ℕ × ℕ))
    (hnd : (l.map Prod.fst).Nodup) (e : String × ℕ × ℕ × ℕ) (he : e ∈ l)
    (hz : e.2.1 + e.2.2.1 = 0) :
    lookupD (catPrecisions ⟨l⟩) e.1 = none := by
  induction l with
  | nil => cases he
  | cons a t ih =>
      simp only [List.map_cons, List.nodup_cons] at hnd
      obtain ⟨hna, hnt⟩ := hnd
      simp only [catPrecisions, List.filterMap_cons]
      rcases List.mem_cons.mp he with rfl | het
      · rw [if_neg (by simpa using hz)]
        exact catPrecisions_lookupD_none t e.1 hna
      · have hne : a.1 ≠ e.1 := by
          intro hcontra
          exact hna (hcontra ▸ List.mem_map_of_mem Prod.fst het)
        by_cases h : a.2.1 + a.2.2.1 ≠ 0
        · rw [if_pos h]
          simp only [lookupD, if_neg hne]
          exact ih hnt het
        · rw [if_neg h]
          exact ih hnt het

/-- An entry with zero recall denominator is dropped from the recall map,
given distinct keys. -/
lemma catRecalls_dropped (l : List (String × ℕ × ℕ × ℕ))
    (hnd : (l.map Prod.fst).Nodup) (e : String × ℕ × ℕ × ℕ) (he : e ∈ l)
    (hz : e.2.1 + e.2.2.2 = 0) :
    lookupD (catRecalls ⟨l⟩) e.1 = none := by
  induction l with
  | nil => cases he
  | cons a t ih =>
      simp only [List.map_cons, List.nodup_cons] at hnd
      obtain ⟨hna, hnt⟩ := hnd
      simp only [catRecalls, List.filterMap_cons]
      rcases List.mem_cons.mp he with rfl | het
      · rw [if_neg (by simpa using hz)]
        exact catRecalls_lookupD_none t e.1 hna
      · have hne : a.1 ≠ e.1 := by
          intro hcontra
          exact hna (hcontra ▸ List.mem_map_of_mem Prod.fst het)
        by_cases h : a.2.1 + a.2.2.2 ≠ 0
        · rw [if_pos h]
          simp only [lookupD, if_neg hne]
          exact ih hnt het
        · rw [if_neg h]
          exact ih hnt het

/-- Monad-law step for `Except`: binding a success applies the
continuation. -/
lemma ok_bind {α β : Type} (x : α) (f : α → Except PyErr β) :
    (Except.ok x >>= f) = f x := rfl

/-- Monad-law step for `Except`: binding a failure propagates it. -/
lemma error_bind {α β : Type} (e : PyErr) (f : α → Except PyErr β) :
    ((Except.error e : Except PyErr α) >>= f) = Except.error e := rfl

/-- The natural-count denominator on `ℚ` is nonzero exactly when it is on
`ℕ`. -/
lemma cast_den_ne (a b : ℕ) (h : a + b ≠ 0) : ((a : ℚ) + (b : ℚ)) ≠ 0 := by
  exact_mod_cast h

/-- The guarded precision comprehension never divides by zero: the explicit
error-tracking evaluation agrees with the total one. -/
lemma catPrecisionsE_ok (s : DetScores) :
    catPrecisionsE s = .ok (catPrecisions s) := by
  obtain ⟨l⟩ := s
  induction l with
  | nil => rfl
  | cons a t ih =>
      simp only [catPrecisionsE, List.foldr_cons] at ih ⊢
      rw [ih]
      simp only [catPrecisions, List.filterMap_cons, ok_bind]
      by_cases h : a.2.1 + a.2.2.1 ≠ 0
      · rw [if_pos h, if_pos h]
        simp only [divE, if_neg (cast_den_ne _ _ h), ok_bind]
        rfl
      · rw [if_neg h, if_neg h]
        rfl

/-- The guarded recall comprehension never divides by zero. -/
lemma catRecallsE_ok (s : DetScores) :
    catRecallsE s = .ok (catRecalls s) := by
  obtain ⟨l⟩ := s
  induction l with
  | nil => rfl
  | cons a t ih =>
      simp only [catRecallsE, List.foldr_cons] at ih ⊢
      rw [ih]
      simp only [catRecalls, List.filterMap_cons, ok_bind]
      by_cases h : a.2.1 + a.2.2.2 ≠ 0
      · rw [if_pos h, if_pos h]
        simp only [divE, if_neg (cast_den_ne _ _ h), ok_bind]
        rfl
      · rw [if_neg h, if_neg h]
        rfl

/-- The F-score fold never raises a `ZeroDivisionError` when every
precision and recall value is nonnegative: the divided denominator `P + R`
is only reached when `P` and `R` are not both zero. -/
lemma fScore_fold_no_div (recalls prec : List (String × ℚ))
    (hp : ∀ e ∈ prec, 0 ≤ e.2) (hr : ∀ e ∈ recalls, 0 ≤ e.2) :
    prec.foldr (fScoreStep recalls) (.ok []) ≠ .error .zeroDivisionError := by
  induction prec with
  | nil => intro h; cases h
  | cons a t ih =>
      have ih' := ih (fun e he => hp e (List.mem_cons_of_mem _ he))
      simp only [List.foldr_cons]
      cases hres : t.foldr (fScoreStep recalls) (.ok []) with
      | error err =>
          have : err ≠ PyErr.zeroDivisionError := by
            intro hcontra
            exact ih' (hcontra ▸ hres)
          simp only [fScoreStep, hres, error_bind]
          intro hcontra
          exact this (Except.error.inj hcontra)
      | ok tl =>
          simp only [fScoreStep, hres, ok_bind]
          cases hlk : lookupD recalls a.1 with
          | none =>
              intro hcontra
              cases Except.error.inj hcontra
          | some r =>
              dsimp only
              by_cases hc : a.2 = (0 : ℚ) ∧ r = 0
              · rw [if_pos hc]
                intro hcontra
                cases hcontra
              · rw [if_neg hc]
                have ha : 0 ≤ a.2 := hp a (List.mem_cons_self _ _)
                have hrr : 0 ≤ r := hr _ (lookupD_mem recalls a.1 r hlk)
                have hden : a.2 + r ≠ 0 := by
                  intro hzero
                  exact hc ⟨le_antisymm (by linarith) ha,
                            le_antisymm (by linarith) hrr⟩
                simp only [divE, if_neg hden, ok_bind]
                intro hcontra
                cases hcontra

/-- In a successful F-score fold, a category whose precision and recall are
both zero gets F-score zero. -/
lemma fScore_fold_lookup_zero (recalls : List (String × ℚ))
    (prec : List (String × ℚ)) (l : List (String × ℚ)) (c : String)
    (h : prec.foldr (fScoreStep recalls) (.ok []) = .ok l)
    (hp : lookupD prec c = some 0) (hr : lookupD recalls c = some 0) :
    lookupD l c = some 0 := by
  induction prec generalizing l with
  | nil => cases hp
  | cons a t ih =>
      simp only [List.foldr_cons] at h
      cases hres : t.foldr (fScoreStep recalls) (.ok []) with
      | error err => rw [fScoreStep, hres, error_bind] at h; cases h
      | ok tl =>
          rw [fScoreStep, hres, ok_bind] at h
          cases hlk : lookupD recalls a.1 with
          | none => rw [hlk] at h; cases h
          | some r =>
              rw [hlk] at h
              dsimp only at h
              simp only [lookupD] at hp
              by_cases hac : a.1 = c
              · rw [if_pos hac] at hp
                have ha0 : a.2 = 0 := Option.some.inj hp
                have hr0 : r = 0 := by
                  rw [hac] at hlk
                  rw [hlk] at hr
                  exact Option.some.inj hr
                rw [if_pos ⟨ha0, hr0⟩] at h
                have hl : l = (a.1, (0 : ℚ)) :: tl := (Except.ok.inj h).symm
                rw [hl]
                simp only [lookupD, if_pos hac]
              · rw [if_neg hac] at hp
                by_cases hc : a.2 = (0 : ℚ) ∧ r = 0
                · rw [if_pos hc] at h
                  have hl : l = (a.1, (0 : ℚ)) :: tl := (Except.ok.inj h).symm
                  rw [hl]
                  simp only [lookupD, if_neg hac]
                  exact ih tl hres hp
                · rw [if_neg hc] at h
                  by_cases hden : a.2 + r = 0
                  · rw [divE, if_pos hden, error_bind] at h
                    cases h
                  · rw [divE, if_neg hden, ok_bind] at h
                    have hl : l = (a.1, 2 * a.2 * r / (a.2 + r)) :: tl :=
                      (Except.ok.inj h).symm
                    rw [hl]
                    simp only [lookupD, if_neg hac]
                    exact ih tl hres hp

/-- C8: zero-denominator statistics are omitted, not errors.  For every
accumulated `DetectionScores` state with distinct category keys:
a category whose `TP + FP` is zero is absent from the precision map; one
whose `TP + FN` is zero is absent from the recall map; a category whose
precision and recall are both zero has F-score zero in any successful
F-score evaluation; and none of the three computations can raise a
`ZeroDivisionError` (the precision/recall comprehensions always succeed,
and the F-score fold can at most raise the `KeyError` latent in the
source's `rec[cat]` access, never a division error). -/
theorem claim8_zero_denominator_stats (s : DetScores)
    (hnd : (s.entries.map Prod.fst).Nodup) :
    (∀ e ∈ s.entries, e.2.1 + e.2.2.1 = 0 →
      lookupD (catPrecisions s) e.1 = none) ∧
    (∀ e ∈ s.entries, e.2.1 + e.2.2.2 = 0 →
      lookupD (catRecalls s) e.1 = none) ∧
    (∀ (c : String) (l : List (String × ℚ)), catFScoresE s = .ok l →
      lookupD (catPrecisions s) c = some 0 →
      lookupD (catRecalls s) c = some 0 → lookupD l c = some 0) ∧
    catPrecisionsE s = .ok (catPrecisions s) ∧
    catRecallsE s = .ok (catRecalls s) ∧
    catFScoresE s ≠ .error .zeroDivisionError := by
  obtain ⟨l⟩ := s
  refine ⟨fun e he hz => catPrecisions_dropped l hnd e he hz,
          fun e he hz => catRecalls_dropped l hnd e he hz,
          fun c fl hok hp hr =>
            fScore_fold_lookup_zero (catRecalls ⟨l⟩) (catPrecisions ⟨l⟩)
              fl c hok hp hr,
          catPrecisionsE_ok ⟨l⟩, catRecallsE_ok ⟨l⟩,
          fScore_fold_no_div (catRecalls ⟨l⟩) (catPrecisions ⟨l⟩)
            (fun e he => catPrecisions_nonneg ⟨l⟩ e he)
            (fun e he => catRecalls_nonneg ⟨l⟩ e he)⟩

/-- Concrete accumulated state for the C8 witness: category A has
`TP + FP = 0` (omitted from precision), category B has `TP + FN = 2`, and
category C has precision and recall both zero. -/
def c8State : DetScores :=
  ⟨[("A", 0, 0, 3), ("B", 2, 1, 0), ("C", 0, 2, 3)]⟩

/-- C8, witness: the theorem applied to a concrete three-category state
with distinct keys. -/
theorem claim8_zero_denominator_stats_witness :
    (c8State.entries.map Prod.fst).Nodup ∧
    ((∀ e ∈ c8State.entries, e.2.1 + e.2.2.1 = 0 →
        lookupD (catPrecisions c8State) e.1 = none) ∧
     (∀ e ∈ c8State.entries, e.2.1 + e.2.2.2 = 0 →
        lookupD (catRecalls c8State) e.1 = none) ∧
     (∀ (c : String) (l : List (String × ℚ)), catFScoresE c8State = .ok l →
        lookupD (catPrecisions c8State) c = some 0 →
        lookupD (catRecalls c8State) c = some 0 → lookupD l c = some 0) ∧
     catPrecisionsE c8State = .ok (catPrecisions c8State) ∧
     catRecallsE c8State = .ok (catRecalls c8State) ∧
     catFScoresE c8State ≠ .error .zeroDivisionError) :=
  ⟨by decide, claim8_zero_denominator_stats c8State (by decide)⟩

/-- The registry-projection loop only writes indices `2 + j` and above when
started at position `j`, so smaller indices keep their value. -/
lemma projectEnemies_get_lt (enemies : List (Option GameObj)) (j : ℕ)
    (objs : List (Option GameObj)) (m : ℕ) (hm : m < 2 + j) :
    (projectEnemies objs j enemies).get? m = objs.get? m := by
  induction enemies generalizing j objs with
  | nil => rfl
  | cons en rest ih =>
      cases en with
      | none => exact ih (j + 1) objs (by omega)
      | some e =>
          simp only [projectEnemies]
          by_cases hy : 0 ≤ e.xy.2 ∧ e.xy.2 < 161
          · rw [if_pos hy]
            rw [ih (j + 1) _ (by omega)]
            exact List.get?_set_ne _ _ (by omega)
          · rw [if_neg hy]
            exact ih (j + 1) objs (by omega)

/-- The projection loop preserves the length of the registry list. -/
lemma projectEnemies_length (enemies : List (Option GameObj)) (j : ℕ)
    (objs : List (Option GameObj)) :
    (projectEnemies objs j enemies).length = objs.length := by
  induction enemies generalizing j objs with
  | nil => rfl
  | cons en rest ih =>
      cases en with
      | none => exact ih (j + 1) objs
      | some e =>
          simp only [projectEnemies]
          by_cases hy : 0 ≤ e.xy.2 ∧ e.xy.2 < 161
          · rw [if_pos hy, ih (j + 1)]
            exact List.length_set _ _ _
          · rw [if_neg hy]
            exact ih (j + 1) objs

/-- A visible enemy in slot `k` of the tracking list is written to registry
slot `2 + j + k` by the projection loop started at position `j`. -/
lemma projectEnemies_get_hit (enemies : List (Option GameObj)) (k j : ℕ)
    (objs : List (Option GameObj)) (e : GameObj)
    (hk : enemies.get? k = some (some e))
    (hy : 0 ≤ e.xy.2 ∧ e.xy.2 < 161)
    (hlen : 2 + j + k < objs.length) :
    (projectEnemies objs j enemies).get? (2 + j + k) = some (some e) := by
  induction enemies generalizing k j objs with
  | nil => cases hk
  | cons en rest ih =>
      cases k with
      | zero =>
          have hen : en = some e := by
            simpa using hk
          subst hen
          simp only [projectEnemies, if_pos hy, Nat.add_zero]
          rw [projectEnemies_get_lt rest (j + 1)
            (objs.set (2 + j) (some e)) (2 + j) (by omega)]
          exact List.get?_set_eq_of_lt _ (by omega)
      | succ k' =>
          have hk' : rest.get? k' = some (some e) := by
            simpa using hk
          have harith : 2 + (j + 1) + k' = 2 + j + (k' + 1) := by omega
          cases en with
          | none =>
              have hrec := ih k' (j + 1) objs hk' (by omega)
              rw [harith] at hrec
              exact hrec
          | some e' =>
              simp only [projectEnemies]
              by_cases hy' : 0 ≤ e'.xy.2 ∧ e'.xy.2 < 161
              · rw [if_pos hy']
                have hrec := ih k' (j + 1) (objs.set (2 + j) (some e')) hk'
                  (by rw [List.length_set]; omega)
                rw [harith] at hrec
                exact hrec
              · rw [if_neg hy']
                have hrec := ih k' (j + 1) objs hk' (by omega)
                rw [harith] at hrec
                exact hrec

/-- C1: slot-identity continuity of the revised decoder.  For every
registry state and pair of consecutive decode steps: when slot `i` tracks
an enemy object `e` after step `t`, and at step `t + 1` the look-ahead
slot `i + 1` reads a type code mapping to `e`'s derived class, the object
appears at step `t + 1` still in slot `i` — both in the tracking list and
(being on-screen) in the registry list — as the identical object, with all
of its accumulated height/animation/history state carried forward rather
than being replaced by a freshly constructed one.  (In the source every
slot-rewriting statement of the decoder loop is commented out, so decode
steps never reassign or re-initialize enemy slots at all, and the claimed
continuity holds a fortiori.) -/
theorem claim1_slot_continuity (s s1 s2 : RRState) (ram1 ram2 : ℕ → ℕ)
    (hud : Bool) (i : ℕ) (e : GameObj) (c : String)
    (h1 : detect_objects_riverraid_revised s ram1 hud = .ok s1)
    (he : s1.enemies.get? i = some (some e))
    (hcode : ramToClass (ram2 (32 + (i + 1))) = .ok (some c))
    (hcls : c = e.cls)
    (h2 : detect_objects_riverraid_revised s1 ram2 hud = .ok s2)
    (hy : 0 ≤ e.xy.2 ∧ e.xy.2 < 161)
    (hlen : 2 + i < s1.objects.length) :
    s2.enemies.get? i = some (some e) ∧
    s2.objects.get? (2 + i) = some (some e) := by
  unfold detect_objects_riverraid_revised at h2
  split at h2
  · obtain rfl := Except.ok.inj h2
    refine ⟨he, ?_⟩
    have hhit := projectEnemies_get_hit s1.enemies i 0 s1.objects e he hy
      (by omega)
    simpa using hhit
  · cases h2

/-- Concrete tracked enemy for the C1 witness: a `Helicopter`-class object
placed on-screen. -/
def c1Enemy : GameObj := (mkGameObject "Helicopter").setXy (40, 50)

/-- Concrete pre-step decoder state for the C1 witness: the enemy is
tracked in slot 0. -/
def c1State : RRState :=
  { cntr := 0, prev70 := none,
    enemies := [some c1Enemy, none, none, none, none, none],
    objects := List.replicate 8 none }

/-- RAM snapshot for the C1 witness's first decode step: all type codes
zero. -/
def c1Ram1 : ℕ → ℕ := fun _ => 0

/-- RAM snapshot for the C1 witness's second decode step: slot 1's type
code (offset 33) reads 5, which maps to `Helicopter`, the tracked enemy's
class. -/
def c1Ram2 : ℕ → ℕ := fun n => if n = 33 then 5 else 0

/-- Decoder state after the first witness step. -/
def c1State1 : RRState :=
  { cntr := 0, prev70 := some 0,
    enemies := [some c1Enemy, none, none, none, none, none],
    objects := [none, none, some c1Enemy, none, none, none, none, none] }

/-- Decoder state after the second witness step. -/
def c1State2 : RRState := c1State1

/-- C1, witness: the continuity theorem applied to the concrete two-step
run, every hypothesis discharged by evaluation. -/
theorem claim1_slot_continuity_witness :
    c1State2.enemies.get? 0 = some (some c1Enemy) ∧
    c1State2.objects.get? (2 + 0) = some (some c1Enemy) :=
  claim1_slot_continuity c1State c1State1 c1State2 c1Ram1 c1Ram2 false 0
    c1Enemy "Helicopter" (by decide) (by decide) (by decide) (by decide)
    (by decide) (by decide) (by decide)

/-- Erasure of the `_is_in_ram` scratch flag only: the inner scan writes
nothing else into vision entities. -/
def eraseRam (o : GameObj) : GameObj := { o with isInRam := none }

/-- Scratch flags are invisible to the category reader. -/
lemma cls_congr_of_strip {a b : GameObj} (h : stripFlags a = stripFlags b) :
    a.cls = b.cls := by
  have h' := congrArg GameObj.cls h
  exact h'

/-- Scratch flags are invisible to the center computation. -/
lemma center_congr_of_strip {a b : GameObj}
    (h : stripFlags a = stripFlags b) : a.center = b.center := by
  have h' := congrArg GameObj.center h
  exact h'

/-- Scratch flags are invisible to `get_iou` (right argument). -/
lemma get_iou_congr_right (r : GameObj) {a b : GameObj}
    (h : stripFlags a = stripFlags b) : get_iou r a = get_iou r b := by
  have h' := congrArg (get_iou r) h
  exact h'

/-- Lists equal after `_is_in_ram` erasure are equal after full flag
erasure. -/
lemma mapStrip_of_mapErase {v1 v2 : List GameObj}
    (h : v1.map eraseRam = v2.map eraseRam) :
    v1.map stripFlags = v2.map stripFlags := by
  have h1 : v1.map stripFlags =
      (v1.map eraseRam).map (fun o => { o with isInImage := none }) := by
    rw [List.map_map]; rfl
  have h2 : v2.map stripFlags =
      (v2.map eraseRam).map (fun o => { o with isInImage := none }) := by
    rw [List.map_map]; rfl
  rw [h1, h2, h]

/-- Resetting the `_is_in_ram` flags gives the same result on lists equal
after `_is_in_ram` erasure. -/
lemma resetVision_of_erase {v1 v2 : List GameObj}
    (h : v1.map eraseRam = v2.map eraseRam) :
    resetVision v1 = resetVision v2 := by
  have h1 : resetVision v1 =
      (v1.map eraseRam).map (fun o => { o with isInRam := some false }) := by
    rw [resetVision, List.map_map]; rfl
  have h2 : resetVision v2 =
      (v2.map eraseRam).map (fun o => { o with isInRam := some false }) := by
    rw [resetVision, List.map_map]; rfl
  rw [h1, h2, h]

/-- Resetting the `_is_in_ram` flags does not change the flag-stripped
view. -/
lemma resetVision_strip (v : List GameObj) :
    (resetVision v).map stripFlags = v.map stripFlags := by
  rw [resetVision, List.map_map]; rfl

/-- Resetting the `_is_in_ram` flags twice is the same as once. -/
lemma resetVision_reset (v : List GameObj) :
    resetVision (resetVision v) = resetVision v := by
  rw [resetVision, resetVision, List.map_map]; rfl

/-- The declarative first-positive-IOU scan does not look at scratch
flags. -/
lemma firstPositiveIou_congr (r : GameObj) (v1 v2 : List GameObj)
    (h : v1.map stripFlags = v2.map stripFlags) :
    firstPositiveIou r v1 = firstPositiveIou r v2 := by
  induction v1 generalizing v2 with
  | nil =>
      cases v2 with
      | nil => rfl
      | cons b u => cases h
  | cons a t ih =>
      cases v2 with
      | nil => cases h
      | cons b u =>
          simp only [List.map_cons, List.cons.injEq] at h
          obtain ⟨hab, ht⟩ := h
          have hcls : a.cls = b.cls := cls_congr_of_strip hab
          have hiou : get_iou r a = get_iou r b := get_iou_congr_right r hab
          simp only [firstPositiveIou, hcls, hiou, ih u ht]

/-- The declarative IOU collection does not look at scratch flags of the
vision list. -/
lemma iousSpec_congr (ram : List GameObj) (v1 v2 : List GameObj)
    (h : v1.map stripFlags = v2.map stripFlags) :
    iousSpec ram v1 = iousSpec ram v2 := by
  induction ram with
  | nil => rfl
  | cons robj rest ih =>
      simp only [iousSpec, firstPositiveIou_congr robj v1 v2 h, ih]

/-- The imperative inner scan refines the declarative first-positive-IOU
description, and only the `_is_in_ram` flags of the vision list change. -/
lemma scanVision_ok (robj : GameObj) (vlist : List GameObj)
    (v' : List GameObj) (f : Option ℚ)
    (h : scanVision robj vlist = .ok (v', f)) :
    firstPositiveIou robj vlist = .ok f ∧
    v'.map eraseRam = vlist.map eraseRam := by
  induction vlist generalizing v' f with
  | nil =>
      obtain ⟨rfl, rfl⟩ := Prod.mk.inj (Except.ok.inj h).symm
      exact ⟨rfl, rfl⟩
  | cons vobj rest ih =>
      simp only [scanVision, firstPositiveIou] at h ⊢
      by_cases hcls : robj.cls = vobj.cls
      · rw [if_pos hcls] at h ⊢
        cases hio : get_iou robj vobj with
        | error err => rw [hio, error_bind] at h; cases h
        | ok iou =>
            rw [hio, ok_bind] at h
            rw [ok_bind]
            by_cases hpos : (0 : ℚ) < iou
            · rw [if_pos hpos] at h
              rw [if_pos hpos]
              obtain ⟨rfl, rfl⟩ := Prod.mk.inj (Except.ok.inj h).symm
              exact ⟨rfl, rfl⟩
            · rw [if_neg hpos] at h
              rw [if_neg hpos]
              cases hrec : scanVision robj rest with
              | error err => rw [hrec, error_bind] at h; cases h
              | ok pr =>
                  rw [hrec, ok_bind] at h
                  obtain ⟨rest', res⟩ := pr
                  dsimp only at h
                  obtain ⟨rfl, rfl⟩ := Prod.mk.inj (Except.ok.inj h).symm
                  obtain ⟨hfp, herase⟩ := ih _ _ hrec
                  refine ⟨hfp, ?_⟩
                  simp only [List.map_cons, herase]
      · rw [if_neg hcls] at h ⊢
        cases hrec : scanVision robj rest with
        | error err => rw [hrec, error_bind] at h; cases h
        | ok pr =>
            rw [hrec, ok_bind] at h
            obtain ⟨rest', res⟩ := pr
            dsimp only at h
            obtain ⟨rfl, rfl⟩ := Prod.mk.inj (Except.ok.inj h).symm
            obtain ⟨hfp, herase⟩ := ih _ _ hrec
            refine ⟨hfp, ?_⟩
            simp only [List.map_cons, herase]

/-- The outer scan refines the declarative IOU collection: on success the
collected list extends the accumulator with exactly the per-ram-object
first positive IOUs, ram entities change only in their `_is_in_image`
flag, and vision entities only in their `_is_in_ram` flag. -/
lemma scanRam_ok (ram : List GameObj) (vlist : List GameObj) (ious : List ℚ)
    (pc : List (String × List ℚ)) (ram' v' : List GameObj) (ious' : List ℚ)
    (pc' : List (String × List ℚ))
    (h : scanRam ram vlist ious pc = .ok (ram', v', ious', pc')) :
    (∃ inew, iousSpec ram vlist = .ok inew ∧ ious' = ious ++ inew) ∧
    ram'.map stripFlags = ram.map stripFlags ∧
    v'.map eraseRam = vlist.map eraseRam := by
  induction ram generalizing vlist ious pc ram' v' ious' pc' with
  | nil =>
      obtain ⟨rfl, rfl, rfl, rfl⟩ :
          ram' = [] ∧ v' = vlist ∧ ious' = ious ∧ pc' = pc := by
        have h' := (Except.ok.inj h).symm
        refine ⟨congrArg (fun q => q.1) h', ?_, ?_, ?_⟩
        · exact congrArg (fun q => q.2.1) h'
        · exact congrArg (fun q => q.2.2.1) h'
        · exact congrArg (fun q => q.2.2.2) h'
      exact ⟨⟨[], rfl, by simp⟩, rfl, rfl⟩
  | cons robj rrest ih =>
      simp only [scanRam] at h
      cases hsv : scanVision robj vlist with
      | error err => rw [hsv, error_bind] at h; cases h
      | ok pr =>
          rw [hsv, ok_bind] at h
          obtain ⟨vlist1, found⟩ := pr
          dsimp only at h
          obtain ⟨hfp, herase1⟩ := scanVision_ok robj vlist vlist1 found hsv
          have hstrip1 : vlist1.map stripFlags = vlist.map stripFlags :=
            mapStrip_of_mapErase herase1
          cases found with
          | some iou =>
              dsimp only at h
              cases hrec : scanRam rrest vlist1 (ious ++ [iou])
                  (addPerClass pc robj.cls iou) with
              | error err => rw [hrec, error_bind] at h; cases h
              | ok q =>
                  rw [hrec, ok_bind] at h
                  obtain ⟨rrest', v2, ious2, pc2⟩ := q
                  dsimp only at h
                  obtain ⟨rfl, rfl, rfl, rfl⟩ :
                      ram' = { robj with isInImage := some true } :: rrest' ∧
                      v' = v2 ∧ ious' = ious2 ∧ pc' = pc2 := by
                    have h' := (Except.ok.inj h).symm
                    refine ⟨congrArg (fun q => q.1) h',
                            congrArg (fun q => q.2.1) h',
                            congrArg (fun q => q.2.2.1) h',
                            congrArg (fun q => q.2.2.2) h'⟩
                  obtain ⟨⟨inew1, hspec1, hious1⟩, hstripr, herase2⟩ :=
                    ih _ _ _ _ _ _ _ hrec
                  refine ⟨⟨iou :: inew1, ?_, ?_⟩, ?_, ?_⟩
                  · simp only [iousSpec, hfp, ok_bind]
                    rw [iousSpec_congr rrest vlist vlist1 hstrip1.symm, hspec1]
                    rfl
                  · rw [hious1, List.append_assoc]
                    rfl
                  · simp only [List.map_cons, hstripr]
                    rfl
                  · exact herase2.trans herase1
          | none =>
              dsimp only at h
              cases hrec : scanRam rrest vlist1 ious pc with
              | error err => rw [hrec, error_bind] at h; cases h
              | ok q =>
                  rw [hrec, ok_bind] at h
                  obtain ⟨rrest', v2, ious2, pc2⟩ := q
                  dsimp only at h
                  obtain ⟨rfl, rfl, rfl, rfl⟩ :
                      ram' = { robj with isInImage := some false } :: rrest' ∧
                      v' = v2 ∧ ious' = ious2 ∧ pc' = pc2 := by
                    have h' := (Except.ok.inj h).symm
                    refine ⟨congrArg (fun q => q.1) h',
                            congrArg (fun q => q.2.1) h',
                            congrArg (fun q => q.2.2.1) h',
                            congrArg (fun q => q.2.2.2) h'⟩
                  obtain ⟨⟨inew1, hspec1, hious1⟩, hstripr, herase2⟩ :=
                    ih _ _ _ _ _ _ _ hrec
                  refine ⟨⟨inew1, ?_, hious1⟩, ?_, ?_⟩
                  · simp only [iousSpec, hfp, ok_bind]
                    rw [iousSpec_congr rrest vlist vlist1 hstrip1.symm, hspec1]
                    rfl
                  · simp only [List.map_cons, hstripr]
                    rfl
                  · exact herase2.trans herase1

/-- The intersection rectangle area computed by `get_iou`. -/
def interAreaOf (o1 o2 : GameObj) : ℤ :=
  imax 0 (imin (o1.xy.1 + o1.wh.1) (o2.xy.1 + o2.wh.1) -
    imax o1.xy.1 o2.xy.1) *
  imax 0 (imin (o1.xy.2 + o1.wh.2) (o2.xy.2 + o2.wh.2) -
    imax o1.xy.2 o2.xy.2)

/-- Concrete ram entity for claims about the IOU collection: box at
`(0, 0)` of size `4 × 4`. -/
def c4A : GameObj := { mkGameObject "Enemy" with xy := (0, 0), wh := (4, 4) }

/-- Concrete vision entity overlapping `c4A`: box at `(1, 1)` of size
`4 × 4` (IOU 9/23). -/
def c4B : GameObj := { mkGameObject "Enemy" with xy := (1, 1), wh := (4, 4) }

/-- Second concrete vision entity also overlapping `c4A`: box at `(2, 2)`
of size `4 × 4` (IOU 1/7). -/
def c4C : GameObj := { mkGameObject "Enemy" with xy := (2, 2), wh := (4, 4) }

/-- C4, counterexample: the claim states the engine computes and includes
the IOU of *every* same-category reference/candidate pair with positive
intersection.  With one ram object overlapping two same-class vision
objects, the pair `(c4A, c4C)` has positive IOU `1/7`, yet the report's
overall and per-class averages contain only the first hit `9/23` — the
average would be `(9/23 + 1/7)/2` if both pairs were included. -/
theorem claim4_counterexample :
    c4A.cls = c4C.cls ∧
    get_iou c4A c4C = .ok (1 / 7) ∧ (0 : ℚ) < 1 / 7 ∧
    (difference_objects (fun r v => (r, v)) [c4A] [c4B, c4C]).map
        (fun x => (x.1.meanIou, x.1.perClassIous)) =
      .ok (some ((9 : ℚ) / 23), [("Enemy", (9 : ℚ) / 23)]) ∧
    ((9 : ℚ) / 23) ≠ ((9 / 23 + 1 / 7) / 2) := by
  refine ⟨rfl, ?_, by norm_num, ?_, by norm_num⟩
  · norm_num [get_iou, c4A, c4C, mkGameObject, imax, imin]
  · norm_num [difference_objects, detection_stats, make_class_lists,
      categoriesOf, insertCat, detectionStatsCat, classifyPairs, closeEnough,
      distSq, MIN_DIST_DETECTION, resetVision, scanRam, scanVision, get_iou,
      addPerClass, pyMean, listMean, ok_bind, imax, imin, GameObj.center,
      c4A, c4B, c4C, mkGameObject, Except.map]

/-- C4 (amended): `get_iou` computes
`intersection_area / (area_A + area_B − intersection_area)` whenever the
denominator is nonzero; but the engine does not collect the IOU of every
positively-overlapping same-category pair: scanning the vision list in
order per ram object, it includes only the first strictly positive IOU
against a same-class vision object for each ram object (breaking off the
scan there), excludes non-overlapping pairs, and averages exactly these
collected values overall (`mean_iou`) and grouped per class
(`per_class_ious`). -/
theorem claim4_iou_collection_amended :
    (∀ o1 o2 : GameObj,
      o1.wh.1 * o1.wh.2 + o2.wh.1 * o2.wh.2 - interAreaOf o1 o2 ≠ 0 →
      get_iou o1 o2 = .ok ((interAreaOf o1 o2 : ℚ) /
        ((o1.wh.1 * o1.wh.2 + o2.wh.1 * o2.wh.2 - interAreaOf o1 o2 : ℤ) :
          ℚ))) ∧
    (∀ (ram vlist r' v' : List GameObj) (i' : List ℚ)
        (p' : List (String × List ℚ)),
      scanRam ram vlist [] [] = .ok (r', v', i', p') →
      iousSpec ram vlist = .ok i') ∧
    (∀ (solver : List (ℚ × ℚ) → List (ℚ × ℚ) →
          List (ℚ × ℚ) × List (ℚ × ℚ))
        (ram vision : List GameObj) (rep : DiffReport)
        (r' v' : List GameObj),
      difference_objects solver ram vision = .ok (rep, r', v') →
      ∃ (ious : List ℚ) (pc : List (String × List ℚ)),
        scanRam ram (resetVision vision) [] [] = .ok (r', v', ious, pc) ∧
        rep.meanIou = pyMean ious ∧
        rep.perClassIous = pc.map (fun e => (e.1, listMean e.2))) := by
  refine ⟨?_, ?_, ?_⟩
  · intro o1 o2 h
    simp only [interAreaOf] at h ⊢
    simp only [get_iou]
    rw [if_neg h]
  · intro ram vlist r' v' i' p' h
    obtain ⟨⟨inew, hspec, hious⟩, -, -⟩ :=
      scanRam_ok ram vlist [] [] r' v' i' p' h
    rw [hspec, hious]
    rfl
  · intro solver ram vision rep r' v' h
    simp only [difference_objects] at h
    cases hscan : scanRam ram (resetVision vision) [] [] with
    | error err => rw [hscan, error_bind] at h; cases h
    | ok q =>
        rw [hscan, ok_bind] at h
        obtain ⟨r1, v1, ious, pc⟩ := q
        dsimp only at h
        obtain ⟨rfl, rfl, rfl⟩ :
            rep = { meanIou := pyMean ious,
                    perClassIous := pc.map (fun e => (e.1, listMean e.2)),
                    onlyInRam :=
                      r1.filter (fun o => o.isInImage ≠ some true),
                    onlyInVision :=
                      v1.filter (fun o => o.isInRam ≠ some true),
                    objsInRam := r1, objsInVision := v1,
                    dets := detection_stats solver ram vision } ∧
            r' = r1 ∧ v' = v1 := by
          have h' := (Except.ok.inj h).symm
          refine ⟨congrArg (fun q => q.1) h',
                  congrArg (fun q => q.2.1) h',
                  congrArg (fun q => q.2.2) h'⟩
        exact ⟨ious, pc, rfl, rfl, rfl⟩

/-- C4, witness: the amended IOU-collection theorem applied to the concrete
one-ram/two-vision run — only the first positive IOU `9/23` is
collected. -/
theorem claim4_iou_collection_amended_witness :
    iousSpec [c4A] [c4B, c4C] = .ok [(9 : ℚ) / 23] :=
  claim4_iou_collection_amended.2.1 [c4A] [c4B, c4C]
    [{ c4A with isInImage := some true }]
    [{ c4B with isInRam := some true }, c4C]
    [(9 : ℚ) / 23] [("Enemy", [(9 : ℚ) / 23])] (by
      norm_num [scanRam, scanVision, get_iou, c4A, c4B, c4C, mkGameObject,
        imax, imin, ok_bind, addPerClass])

/-- The inner scan ignores the ram object's `_is_in_image` flag. -/
lemma scanVision_image_flag (robj : GameObj) (x : Option Bool)
    (vlist : List GameObj) :
    scanVision { robj with isInImage := x } vlist = scanVision robj vlist := by
  induction vlist with
  | nil => rfl
  | cons vobj rest ih =>
      simp only [scanVision, ih]
      rfl

/-- Re-running the outer scan on its own output ram list (whose entities
differ from the input only in their `_is_in_image` flags, already set to
the values the scan will write again) reproduces the same result. -/
lemma scanRam_rerun (ram vlist : List GameObj) (ious : List ℚ)
    (pc : List (String × List ℚ)) (ram' v' : List GameObj) (ious' : List ℚ)
    (pc' : List (String × List ℚ))
    (h : scanRam ram vlist ious pc = .ok (ram', v', ious', pc')) :
    scanRam ram' vlist ious pc = .ok (ram', v', ious', pc') := by
  induction ram generalizing vlist ious pc ram' v' ious' pc' with
  | nil =>
      obtain ⟨rfl, rfl, rfl, rfl⟩ :
          ram' = [] ∧ v' = vlist ∧ ious' = ious ∧ pc' = pc := by
        have h' := (Except.ok.inj h).symm
        exact ⟨congrArg (fun q => q.1) h', congrArg (fun q => q.2.1) h',
               congrArg (fun q => q.2.2.1) h',
               congrArg (fun q => q.2.2.2) h'⟩
      rfl
  | cons robj rrest ih =>
      simp only [scanRam] at h
      cases hsv : scanVision robj vlist with
      | error err => rw [hsv, error_bind] at h; cases h
      | ok pr =>
          rw [hsv, ok_bind] at h
          obtain ⟨vlist1, found⟩ := pr
          dsimp only at h
          cases found with
          | some iou =>
              dsimp only at h
              cases hrec : scanRam rrest vlist1 (ious ++ [iou])
                  (addPerClass pc robj.cls iou) with
              | error err => rw [hrec, error_bind] at h; cases h
              | ok q =>
                  rw [hrec, ok_bind] at h
                  obtain ⟨rrest', v2, ious2, pc2⟩ := q
                  dsimp only at h
                  obtain ⟨rfl, rfl, rfl, rfl⟩ :
                      ram' = { robj with isInImage := some true } :: rrest' ∧
                      v' = v2 ∧ ious' = ious2 ∧ pc' = pc2 := by
                    have h' := (Except.ok.inj h).symm
                    exact ⟨congrArg (fun q => q.1) h',
                           congrArg (fun q => q.2.1) h',
                           congrArg (fun q => q.2.2.1) h',
                           congrArg (fun q => q.2.2.2) h'⟩
                  have hrerun := ih _ _ _ _ _ _ _ hrec
                  simp only [scanRam, scanVision_image_flag, hsv, ok_bind,
                    hrerun]
          | none =>
              dsimp only at h
              cases hrec : scanRam rrest vlist1 ious pc with
              | error err => rw [hrec, error_bind] at h; cases h
              | ok q =>
                  rw [hrec, ok_bind] at h
                  obtain ⟨rrest', v2, ious2, pc2⟩ := q
                  dsimp only at h
                  obtain ⟨rfl, rfl, rfl, rfl⟩ :
                      ram' = { robj with isInImage := some false } :: rrest' ∧
                      v' = v2 ∧ ious' = ious2 ∧ pc' = pc2 := by
                    have h' := (Except.ok.inj h).symm
                    exact ⟨congrArg (fun q => q.1) h',
                           congrArg (fun q => q.2.1) h',
                           congrArg (fun q => q.2.2.1) h',
                           congrArg (fun q => q.2.2.2) h'⟩
                  have hrerun := ih _ _ _ _ _ _ _ hrec
                  simp only [scanRam, scanVision_image_flag, hsv, ok_bind,
                    hrerun]

/-- Flag-stripped-equal lists have the same category names. -/
lemma clsMap_of_stripMap {l1 l2 : List GameObj}
    (h : l1.map stripFlags = l2.map stripFlags) :
    l1.map GameObj.cls = l2.map GameObj.cls := by
  have h1 : l1.map GameObj.cls = (l1.map stripFlags).map GameObj.cls := by
    rw [List.map_map]; rfl
  have h2 : l2.map GameObj.cls = (l2.map stripFlags).map GameObj.cls := by
    rw [List.map_map]; rfl
  rw [h1, h2, h]

/-- Flag-stripped-equal lists have the same per-category center lists. -/
lemma filter_center_congr {l1 l2 : List GameObj}
    (h : l1.map stripFlags = l2.map stripFlags) (cat : String) :
    (l1.filter (fun o => o.cls = cat)).map GameObj.center =
    (l2.filter (fun o => o.cls = cat)).map GameObj.center := by
  induction l1 generalizing l2 with
  | nil =>
      cases l2 with
      | nil => rfl
      | cons b u => cases h
  | cons a t ih =>
      cases l2 with
      | nil => cases h
      | cons b u =>
          simp only [List.map_cons, List.cons.injEq] at h
          obtain ⟨hab, ht⟩ := h
          have hcls : a.cls = b.cls := cls_congr_of_strip hab
          have hcen : a.center = b.center := center_congr_of_strip hab
          simp only [List.filter_cons, hcls]
          by_cases hcat : b.cls = cat
          · simp [hcat, hcen, ih ht]
          · simp [hcat, ih ht]

/-- The matching engine's per-category partition only reads categories and
centers, so it is invariant under scratch-flag changes. -/
lemma make_class_lists_congr {r1 r2 v1 v2 : List GameObj}
    (hr : r1.map stripFlags = r2.map stripFlags)
    (hv : v1.map stripFlags = v2.map stripFlags) :
    make_class_lists r1 v1 = make_class_lists r2 v2 := by
  have hcats : categoriesOf (r1 ++ v1) = categoriesOf (r2 ++ v2) := by
    unfold categoriesOf
    rw [List.map_append, List.map_append, clsMap_of_stripMap hr,
      clsMap_of_stripMap hv]
  unfold make_class_lists
  rw [hcats]
  exact List.map_congr_left (fun cat _ => by
    rw [filter_center_congr hr cat, filter_center_congr hv cat])

/-- `detection_stats` is invariant under scratch-flag changes of its input
entities. -/
lemma detection_stats_congr
    (solver : List (ℚ × ℚ) → List (ℚ × ℚ) → List (ℚ × ℚ) × List (ℚ × ℚ))
    {r1 r2 v1 v2 : List GameObj}
    (hr : r1.map stripFlags = r2.map stripFlags)
    (hv : v1.map stripFlags = v2.map stripFlags) :
    detection_stats solver r1 v1 = detection_stats solver r2 v2 := by
  unfold detection_stats
  rw [make_class_lists_congr hr hv]

/-- Concrete vision entity for the C9 counterexample, carrying a stale
`_is_in_ram = True` flag from an earlier comparison. -/
def c9Vision : GameObj := { mkGameObject "Enemy" with isInRam := some true }

/-- The same entity after `difference_objects` has rewritten its flag. -/
def c9VisionAfter : GameObj :=
  { mkGameObject "Enemy" with isInRam := some false }

/-- C9, counterexample: the claim states an invocation leaves every entity
in the input lists unchanged.  `difference_objects` writes the
`_is_in_ram` scratch flag of every vision entity (and `_is_in_image` of
every ram entity) in place: a vision entity entering with
`_is_in_ram = True` leaves the call with `_is_in_ram = False`, so the
entity is changed. -/
theorem claim9_counterexample :
    (difference_objects (fun r v => (r, v)) [] [c9Vision]).map
        (fun x => x.2.2) = .ok [c9VisionAfter] ∧
    c9VisionAfter ≠ c9Vision := by
  constructor
  · norm_num [difference_objects, detection_stats, make_class_lists,
      categoriesOf, insertCat, detectionStatsCat, classifyPairs,
      resetVision, scanRam, scanVision, pyMean, ok_bind, Except.map,
      c9Vision, c9VisionAfter, mkGameObject]
  · decide

/-- C9 (amended): `detection_stats` is a pure function of its inputs, but
`difference_objects` mutates the entities of both input lists in place:
it rewrites exactly the `_is_in_ram` / `_is_in_image` scratch flags and
nothing else (the flag-stripped views of the output lists equal those of
the inputs), it touches no state shared across invocations, and it is
reproducible — re-invoking it on the same (now flag-mutated) entities
returns the identical report and leaves the entities as they are. -/
theorem claim9_engine_effects_amended
    (solver : List (ℚ × ℚ) → List (ℚ × ℚ) → List (ℚ × ℚ) × List (ℚ × ℚ))
    (ram vision : List GameObj) (rep : DiffReport)
    (ram' v' : List GameObj)
    (h : difference_objects solver ram vision = .ok (rep, ram', v')) :
    ram'.map stripFlags = ram.map stripFlags ∧
    v'.map stripFlags = vision.map stripFlags ∧
    difference_objects solver ram' v' = .ok (rep, ram', v') := by
  simp only [difference_objects] at h
  cases hscan : scanRam ram (resetVision vision) [] [] with
  | error err => rw [hscan, error_bind] at h; cases h
  | ok q =>
      rw [hscan, ok_bind] at h
      obtain ⟨r1, v1, ious, pc⟩ := q
      dsimp only at h
      obtain ⟨rfl, rfl, rfl⟩ :
          rep = { meanIou := pyMean ious,
                  perClassIous := pc.map (fun e => (e.1, listMean e.2)),
                  onlyInRam := r1.filter (fun o => o.isInImage ≠ some true),
                  onlyInVision :=
                    v1.filter (fun o => o.isInRam ≠ some true),
                  objsInRam := r1, objsInVision := v1,
                  dets := detection_stats solver ram vision } ∧
          ram' = r1 ∧ v' = v1 := by
        have h' := (Except.ok.inj h).symm
        exact ⟨congrArg (fun q => q.1) h', congrArg (fun q => q.2.1) h',
               congrArg (fun q => q.2.2) h'⟩
      obtain ⟨-, hstripr, herasev⟩ :=
        scanRam_ok ram (resetVision vision) [] [] ram' v' ious pc hscan
      have hstripv : v'.map stripFlags = vision.map stripFlags :=
        (mapStrip_of_mapErase herasev).trans (resetVision_strip vision)
      refine ⟨hstripr, hstripv, ?_⟩
      have hreset : resetVision v' = resetVision vision := by
        rw [resetVision_of_erase herasev, resetVision_reset]
      have hrerun :=
        scanRam_rerun ram (resetVision vision) [] [] ram' v' ious pc hscan
      simp only [difference_objects, hreset, hrerun, ok_bind]
      rw [detection_stats_congr solver hstripr hstripv]
      rfl

/-- The report of the concrete C9 run: no ram objects, one vision object,
no overlaps. -/
def c9Report : DiffReport :=
  { meanIou := none, perClassIous := [], onlyInRam := [],
    onlyInVision := [c9VisionAfter], objsInRam := [],
    objsInVision := [c9VisionAfter], dets := [("Enemy", 0, 0, 1)] }

/-- C9, witness: the amended theorem applied to the concrete run — the
output vision entity differs from the input only in its scratch flag, and
the re-invocation reproduces the report. -/
theorem claim9_engine_effects_amended_witness :
    (([] : List GameObj)).map stripFlags = ([] : List GameObj).map stripFlags ∧
    [c9VisionAfter].map stripFlags = [c9Vision].map stripFlags ∧
    difference_objects (fun r v => (r, v)) [] [c9VisionAfter] =
      .ok (c9Report, [], [c9VisionAfter]) :=
  claim9_engine_effects_amended (fun r v => (r, v)) [] [c9Vision] c9Report
    [] [c9VisionAfter] (by
      norm_num [difference_objects, detection_stats, make_class_lists,
        categoriesOf, insertCat, detectionStatsCat, classifyPairs,
        resetVision, scanRam, scanVision, pyMean, ok_bind,
        c9Vision, c9VisionAfter, c9Report, mkGameObject])

end OCAtari
